import Mathlib

/-!
Shallow embedding, in Lean 4, of the note-management core of the
`smart-assistant-todos` repository (a Node.js LLM-driven notes CRUD
assistant), together with theorems checking the natural-language
specification against it.

Embedded components and their sources:

* string helpers modelling the JavaScript primitives the code uses
  (`String.prototype.trim`, `slice`, `startsWith`, `split`, `parseInt`);
* the `Note` record and the CRUD operations `addNote`, `listNotes`,
  `updateNote`, `deleteNote` from `src/backend/services/notes.js`;
* the scoped store accessor `withNotes` from `src/backend/repositories/notes.js`
  (shown inside `src/backend/index.js`'s repository module), with file
  loading (`loadNotes`) modelled over an abstract raw-store state;
* a small JSON value type with an executable parser modelling `JSON.parse`
  on the JSON fragment this system exchanges (integer numerals, strings
  with the basic escapes, arrays, objects, literals);
* the LLM-response decoding fallback of `callOpenAI` / `callOllama`
  (`src/backend/routes/message.js`, `src/services/llm/ollama.js`):
  direct parse, then the greedy regex `\{[\s\S]*\}` extraction, then a
  synthesized `no_op`;
* the validator `validateLLMResult` from `src/services/llm/llm.js`,
  embedded in an exception monad so that "never raises" is a real
  statement about the guarding of every dynamic field access.

JavaScript strings are modelled as Lean `String` (code points instead of
UTF-16 units; the difference is invisible to every claim checked here),
`null`/optional arguments as `Option`, thrown errors as `Except`.
-/

/-! ## JavaScript string primitives -/

/-- Whitespace as trimmed by `String.prototype.trim` (the ASCII fragment). -/
def jsWhite (c : Char) : Bool :=
  c = ' ' || c = '\t' || c = '\n' || c = '\r'

/-- `String.prototype.trim`: drop whitespace from both ends. -/
def jsTrim (s : String) : String :=
  ⟨((s.data.dropWhile jsWhite).reverse.dropWhile jsWhite).reverse⟩

/-- `s.slice(0, n)` for a nonnegative count: the first `n` characters. -/
def takeChars (s : String) (n : Nat) : String :=
  ⟨s.data.take n⟩

/-- `String.prototype.startsWith`. -/
def jsStartsWith (s pre : String) : Bool :=
  pre.data.isPrefixOf s.data

/-- Numeric value of a list of decimal digits. -/
def digitsVal (cs : List Char) : Nat :=
  cs.foldl (fun acc c => 10 * acc + (c.toNat - '0'.toNat)) 0

/-- `parseInt(s, 10)`: skip leading whitespace, read an optional sign and
then the longest decimal-digit prefix; `none` models `NaN`. Trailing
garbage is ignored, exactly as in JavaScript. -/
def parseIntJS (s : String) : Option Int :=
  let cs := s.data.dropWhile jsWhite
  let signed : Bool × List Char :=
    match cs with
    | '-' :: rest => (true, rest)
    | '+' :: rest => (false, rest)
    | _ => (false, cs)
  let digits := signed.2.takeWhile Char.isDigit
  if digits.isEmpty then none
  else
    let v : Int := Int.ofNat (digitsVal digits)
    some (if signed.1 then -v else v)

/-- `s.split(":")[1]`: the segment between the first and second `":"`
(`""` if the string has no `":"` at all gives index out of range, which in
JavaScript yields `undefined`; `parseInt(undefined)` is `NaN`, so we fold
that case into `none` at the use site by returning `none` here). -/
def splitColonSecond (s : String) : Option String :=
  let fromColon := s.data.dropWhile (fun c => ¬ c = ':')
  match fromColon with
  | [] => none
  | _ :: rest => some ⟨rest.takeWhile (fun c => ¬ c = ':')⟩

/-- The count extracted by `listNotes` from a `recent:`-style filter:
`parseInt(filter.split(':')[1], 10) || 0`. `NaN || 0` is `0`, `0 || 0`
is `0`, and any other integer is truthy and kept. -/
def recentCount (filter : String) : Int :=
  match splitColonSecond filter with
  | none => 0
  | some seg =>
    match parseIntJS seg with
    | none => 0
    | some v => v

/-! ## The Note data model (`src/backend/services/notes.js`) -/

/-- `MAX_TEXT_LENGTH` from `src/backend/services/notes.js`. -/
def MAX_TEXT_LENGTH : Nat := 4000

/-- A persisted note record. Timestamps are the ISO strings the code
stores; their values are supplied by the environment (`nowIso()`). -/
structure Note where
  id : String
  text : String
  status : String
  created_at : String
  updated_at : String
deriving Repr, DecidableEq

/-- Errors thrown by the notes service and the store. -/
inductive NoteErr where
  /-- `new Error('note not found')`. -/
  | notFound
  /-- `new Error('invalid status')` and the other argument checks. -/
  | validation (msg : String)
deriving Repr, DecidableEq

/-! ## The scoped store accessor (`withNotes`)

`withNotes(callback)` loads the collection, runs the callback, and —
only when the callback returns a value — writes the result back. A
callback that throws aborts before the write. We model the persistent
state as the already-loaded collection (the file-level loading path is
modelled separately as `loadNotes` below) and return both the call's
result and the final persisted state. -/

def withNotes (stored : List Note)
    (callback : List Note → Except NoteErr (Option (List Note))) :
    Except NoteErr (List Note) × List Note :=
  match callback stored with
  | .error e => (.error e, stored)
  | .ok (some result) => (.ok result, result)
  | .ok none => (.ok stored, stored)

/-! ## CRUD operations (`src/backend/services/notes.js`) -/

/-- `addNote(text)`: trim and truncate, build the new note, push it and
return the callback's value through `withNotes`. The fresh id and the
timestamp are supplied by the environment. Note that the callback
returns the whole `notes` array, so `withNotes` — and therefore
`addNote` — returns the whole collection. -/
def addNote (stored : List Note) (text : String) (freshId now : String) :
    Except NoteErr (List Note) × List Note :=
  let trimmed := takeChars (jsTrim text) MAX_TEXT_LENGTH
  withNotes stored (fun notes =>
    let newNote : Note :=
      { id := freshId, text := trimmed, status := "TODO"
        created_at := now, updated_at := now }
    .ok (some (notes ++ [newNote])))

/-- The filter/limit pipeline of `listNotes` applied to the loaded
collection: `res = notes.slice()` then the filter branches then
`res.slice(0, limit)`. `limit` is `null` or an integer once the route's
`args.limit ?? null` has run. A negative `limit` makes `slice(0, limit)`
drop `-limit` elements from the end. -/
def listFilter (notes : List Note) (filter : String) (limit : Option Int) :
    List Note :=
  let res := notes
  let res :=
    if filter = "TODO" then res.filter (fun n => n.status = "TODO")
    else if filter = "DONE" then res.filter (fun n => n.status = "DONE")
    else if jsStartsWith filter "recent:" then
      let n := recentCount filter
      if 0 < n then res.drop (res.length - min n.toNat res.length)
      else res
    else res
  match limit with
  | some l =>
    if 0 ≤ l then res.take l.toNat
    else res.take (res.length - (-l).toNat)
  | none => res

/-- `listNotes({filter, limit})`: a read-only `withNotes` access
(`withNotes(() => {})`, whose callback returns `undefined`) followed by
the filter pipeline. Returns the listing and the final stored state. -/
def listNotes (stored : List Note) (filter : String) (limit : Option Int) :
    List Note × List Note :=
  let loaded := withNotes stored (fun _ => .ok none)
  match loaded.1 with
  | .ok notes => (listFilter notes filter limit, loaded.2)
  | .error _ => ([], loaded.2)

/-- `updateNote(id, {text, status})` callback body: locate the note,
apply the optional text (re-trimmed and truncated) and status (must be
one of the two enum values), refresh `updated_at`. -/
def updateBody (notes : List Note) (id : String)
    (text status : Option String) (now : String) :
    Except NoteErr (List Note) :=
  match h : notes.findIdx? (fun n => n.id = id) with
  | none => .error .notFound
  | some idx =>
    let old := notes.get ⟨idx, (List.findIdx?_eq_some_iff_findIdx_eq.mp h).1⟩
    let old :=
      match text with
      | some t => { old with text := takeChars (jsTrim t) MAX_TEXT_LENGTH }
      | none => old
    match status with
    | some st =>
      if st = "TODO" ∨ st = "DONE" then
        .ok (notes.set idx { old with status := st, updated_at := now })
      else .error (.validation "invalid status")
    | none => .ok (notes.set idx { old with updated_at := now })

/-- `updateNote` through `withNotes`: the callback's returned collection
is persisted; a thrown error aborts before the write. -/
def updateNote (stored : List Note) (id : String)
    (text status : Option String) (now : String) :
    Except NoteErr (List Note) × List Note :=
  withNotes stored (fun notes => (updateBody notes id text status now).map some)

/-- `deleteNote(id)`: filter the note out, throw if nothing was removed. -/
def deleteNote (stored : List Note) (id : String) :
    Except NoteErr (List Note) × List Note :=
  withNotes stored (fun notes =>
    let newNotes := notes.filter (fun n => ¬ n.id = id)
    if newNotes.length = notes.length then .error .notFound
    else .ok (some newNotes))

/-! ## JSON values and `JSON.parse`

The system exchanges a small JSON fragment (objects, arrays, strings,
integer numerals, literals). The parser below models `JSON.parse` on
that fragment: it is executable and fuel-based, and a parse failure
models the thrown `SyntaxError`. -/

inductive Json where
  | null
  | bool (b : Bool)
  | num (n : Int)
  | str (s : String)
  | arr (xs : List Json)
  | obj (fields : List (String × Json))

/-- Parse the body of a JSON string literal (after the opening quote),
handling the basic escapes; returns the string and the rest after the
closing quote. -/
def parseStringBody : Nat → List Char → Option (String × List Char)
  | 0, _ => none
  | _, [] => none
  | fuel + 1, c :: rest =>
    if c = '"' then some ("", rest)
    else if c = '\\' then
      match rest with
      | [] => none
      | e :: rest₂ =>
        let dec : Option Char :=
          if e = '"' then some '"'
          else if e = '\\' then some '\\'
          else if e = '/' then some '/'
          else if e = 'n' then some '\n'
          else if e = 't' then some '\t'
          else if e = 'r' then some '\r'
          else none
        match dec with
        | none => none
        | some d =>
          match parseStringBody fuel rest₂ with
          | some (s, rest₃) => some (⟨d :: s.data⟩, rest₃)
          | none => none
    else
      match parseStringBody fuel rest with
      | some (s, rest₂) => some (⟨c :: s.data⟩, rest₂)
      | none => none

mutual

/-- Parse one JSON value from the front of the input (whitespace already
allowed before it), returning the value and the remaining input. -/
def parseValue : Nat → List Char → Option (Json × List Char)
  | 0, _ => none
  | fuel + 1, input =>
    match input.dropWhile jsWhite with
    | [] => none
    | c :: rest =>
      if c = '"' then
        match parseStringBody fuel rest with
        | some (s, rest₂) => some (.str s, rest₂)
        | none => none
      else if c = '{' then
        match (rest.dropWhile jsWhite) with
        | '}' :: rest₂ => some (.obj [], rest₂)
        | _ => match parseMembers fuel rest with
          | some (fs, rest₂) => some (.obj fs, rest₂)
          | none => none
      else if c = '[' then
        match (rest.dropWhile jsWhite) with
        | ']' :: rest₂ => some (.arr [], rest₂)
        | _ => match parseElements fuel rest with
          | some (xs, rest₂) => some (.arr xs, rest₂)
          | none => none
      else if c = 't' then
        match rest with
        | 'r' :: 'u' :: 'e' :: rest₂ => some (.bool true, rest₂)
        | _ => none
      else if c = 'f' then
        match rest with
        | 'a' :: 'l' :: 's' :: 'e' :: rest₂ => some (.bool false, rest₂)
        | _ => none
      else if c = 'n' then
        match rest with
        | 'u' :: 'l' :: 'l' :: rest₂ => some (.null, rest₂)
        | _ => none
      else if c = '-' then
        let digits := rest.takeWhile Char.isDigit
        if digits.isEmpty then none
        else some (.num (-(Int.ofNat (digitsVal digits))), rest.dropWhile Char.isDigit)
      else if c.isDigit then
        let digits := (c :: rest).takeWhile Char.isDigit
        some (.num (Int.ofNat (digitsVal digits)), (c :: rest).dropWhile Char.isDigit)
      else none

/-- Parse the members of an object after the opening brace (nonempty). -/
def parseMembers : Nat → List Char → Option (List (String × Json) × List Char)
  | 0, _ => none
  | fuel + 1, input =>
    match input.dropWhile jsWhite with
    | '"' :: rest =>
      match parseStringBody fuel rest with
      | none => none
      | some (key, rest₂) =>
        match rest₂.dropWhile jsWhite with
        | ':' :: rest₃ =>
          match parseValue fuel rest₃ with
          | none => none
          | some (v, rest₄) =>
            match rest₄.dropWhile jsWhite with
            | ',' :: rest₅ =>
              match parseMembers fuel rest₅ with
              | some (fs, rest₆) => some ((key, v) :: fs, rest₆)
              | none => none
            | '}' :: rest₅ => some ([(key, v)], rest₅)
            | _ => none
        | _ => none
    | _ => none

/-- Parse the elements of an array after the opening bracket (nonempty). -/
def parseElements : Nat → List Char → Option (List Json × List Char)
  | 0, _ => none
  | fuel + 1, input =>
    match parseValue fuel input with
    | none => none
    | some (v, rest) =>
      match rest.dropWhile jsWhite with
      | ',' :: rest₂ =>
        match parseElements fuel rest₂ with
        | some (xs, rest₃) => some (v :: xs, rest₃)
        | none => none
      | ']' :: rest₂ => some ([v], rest₂)
      | _ => none

end

/-- `JSON.parse(s)`: the whole input must be one value surrounded only by
whitespace; `none` models the thrown `SyntaxError`. -/
def jsonParse (s : String) : Option Json :=
  match parseValue (s.length + 1) s.data with
  | some (v, rest) => if (rest.dropWhile jsWhite).isEmpty then some v else none
  | none => none

/-! ## LLM response decoding (`callOpenAI` / `callOllama`)

`try { return JSON.parse(content) } catch { const m = content.match(/\{[\s\S]*\}/); ... }`
with a synthesized `no_op` when both parses fail. The regex is greedy:
the match runs from the first `{` in the content to the last `}`. -/

/-- The match of the greedy regex `\{[\s\S]*\}` against `s`: the
substring from the first `{` to the last `}`, provided the last `}`
comes after the first `{`; otherwise no match. -/
def greedyBraceMatch (s : String) : Option String :=
  let cs := s.data
  match cs.findIdx? (fun c => c = '\x7b'), cs.reverse.findIdx? (fun c => c = '\x7d') with
  | some i, some rj =>
    let j := cs.length - 1 - rj
    if i < j then some ⟨(cs.drop i).take (j - i + 1)⟩ else none
  | _, _ => none

/-- The synthesized fallback decision
`{ action: "no_op", args: { message: "Could not parse LLM output." } }`. -/
def noopFallback : Json :=
  .obj [("action", .str "no_op"),
        ("args", .obj [("message", .str "Could not parse LLM output.")])]

/-- Decode the raw LLM response text: direct `JSON.parse`, then parse of
the greedy `{...}` match, then the `no_op` fallback. -/
def extractAction (content : String) : Json :=
  match jsonParse content with
  | some v => v
  | none =>
    match greedyBraceMatch content with
    | some m =>
      match jsonParse m with
      | some v => v
      | none => noopFallback
    | none => noopFallback

/-! ## The validator (`validateLLMResult` in `src/services/llm/llm.js`)

The input is an arbitrary decoded JSON value. JavaScript property reads
that may yield `undefined` are modelled as `Option Json`; the method
calls and `in`-operator uses, which throw a `TypeError` when applied to
a value of the wrong shape, run in an exception monad, so that "the
validator never raises" is a statement about the code's guards. -/

/-- Thrown JavaScript exceptions (the validator could only ever throw
`TypeError`s from calling methods on non-objects / non-strings). -/
inductive JsErr where
  | typeError
deriving Repr, DecidableEq

/-- The validator's result value: `{ok: true}` or `{ok: false, error}`. -/
inductive ValidationResult where
  | pass
  | err (msg : String)
deriving Repr, DecidableEq

/-- Property read `v[key]` for a non-numeric key: on objects the last
binding wins (as with duplicate keys in `JSON.parse`); on every other
value — including arrays, whose own keys are numeric — the read yields
`undefined` (`none`). The key is never `__proto__` etc. here. (On an
array, `v["filter"]` in JavaScript is actually the inherited
`Array.prototype.filter` function; the validator only ever passes such
a read to a `typeof === 'string'` test, which classifies a function and
`undefined` identically, so `none` is a faithful rendering for the keys
used here.) -/
def jsGet (v : Json) (key : String) : Option Json :=
  match v with
  | .obj fields => fields.foldl (fun acc f => if f.1 = key then some f.2 else acc) none
  | _ => none

/-- `key in v` for a non-numeric key, defined where `v` is an object
(including arrays); throws `TypeError` otherwise. `in` also sees
inherited properties: on an array it consults `Array.prototype`, which
owns `filter` but none of the other keys this validator queries
(`limit`, `text`, `status`), so of those keys exactly `"filter"` tests
true on an array. -/
def jsHasKey (v : Option Json) (key : String) : Except JsErr Bool :=
  match v with
  | some (.obj fields) => .ok (fields.any (fun f => f.1 = key))
  | some (.arr _) => .ok (key = "filter")
  | _ => .error .typeError

/-- `v.trim()`: defined on strings, `TypeError` otherwise. -/
def jsTrimMethod (v : Option Json) : Except JsErr String :=
  match v with
  | some (.str s) => .ok (jsTrim s)
  | _ => .error .typeError

/-- `v.startsWith(pre)`: defined on strings, `TypeError` otherwise. -/
def jsStartsWithMethod (v : Option Json) (pre : String) : Except JsErr Bool :=
  match v with
  | some (.str s) => .ok (jsStartsWith s pre)
  | _ => .error .typeError

/-- JavaScript truthiness of a decoded JSON value. -/
def jsTruthy (v : Json) : Bool :=
  match v with
  | .null => false
  | .bool b => b
  | .num n => ¬ n = 0
  | .str s => ¬ s = ""
  | .arr _ => true
  | .obj _ => true

/-- `typeof v === 'object'` for a decoded JSON value. -/
def jsTypeofObject (v : Json) : Bool :=
  match v with
  | .null => true
  | .arr _ => true
  | .obj _ => true
  | _ => false

/-- `typeof v === 'string'` for a possibly-`undefined` value. -/
def jsTypeofString (v : Option Json) : Bool :=
  match v with
  | some (.str _) => true
  | _ => false

/-- `Number.isInteger(v)`: JSON numbers in our fragment are integers. -/
def jsIsInteger (v : Option Json) : Bool :=
  match v with
  | some (.num _) => true
  | _ => false

/-- `v === "<s>"` for a possibly-`undefined` decoded value and a string
literal. -/
def jsEqStr (v : Option Json) (s : String) : Bool :=
  match v with
  | some (.str t) => t = s
  | _ => false

/-- `v === null` for a possibly-`undefined` decoded value. -/
def jsIsNull (v : Option Json) : Bool :=
  match v with
  | some .null => true
  | _ => false

/-- `allowed.has(action)` for
`allowed = new Set(['add_note','list_notes','update_note','delete_note','no_op'])`. -/
def isAllowedAction (v : Option Json) : Bool :=
  match v with
  | some (.str s) =>
    s = "add_note" || s = "list_notes" || s = "update_note" ||
    s = "delete_note" || s = "no_op"
  | _ => false

/-- `typeof args === 'object' && args !== null` (and not `undefined`). -/
def isObjectNonNull (v : Option Json) : Bool :=
  match v with
  | some (.arr _) => true
  | some (.obj _) => true
  | _ => false

/-- The `add_note` case of the validator's switch. -/
def validateAddNote (args : Option Json) : Except JsErr ValidationResult :=
  if !jsTypeofString (jsGet (args.getD .null) "text") then
    .ok (.err "add_note.args.text must be string")
  else do
    let t ← jsTrimMethod (jsGet (args.getD .null) "text")
    if t.length = 0 then pure (.err "text cannot be empty") else pure .pass

/-- The `list_notes` case of the validator's switch. -/
def validateListNotes (args : Option Json) : Except JsErr ValidationResult := do
  let hasFilter ← jsHasKey args "filter"
  let filterErr ←
    if hasFilter then do
      let f := jsGet (args.getD .null) "filter"
      if !jsTypeofString f then pure (some (ValidationResult.err "filter must be string"))
      else do
        let isRecent ← jsStartsWithMethod f "recent:"
        if !jsEqStr f "all" && !jsEqStr f "TODO" && !jsEqStr f "DONE" &&
           !isRecent then
          pure (some (ValidationResult.err "invalid filter"))
        else pure none
    else pure none
  match filterErr with
  | some e => pure e
  | none => do
    let hasLimit ← jsHasKey args "limit"
    if hasLimit then
      let l := jsGet (args.getD .null) "limit"
      if !jsIsNull l && !jsIsInteger l then
        pure (.err "limit must be integer or null")
      else pure .pass
    else pure .pass

/-- The `update_note` case of the validator's switch. -/
def validateUpdateNote (args : Option Json) : Except JsErr ValidationResult := do
  if !jsTypeofString (jsGet (args.getD .null) "id") then
    pure (.err "update_note.args.id must be string")
  else do
    let hasText ← jsHasKey args "text"
    let hasStatus ← jsHasKey args "status"
    if !hasText && !hasStatus then
      pure (.err "update_note must provide text or status")
    else
      let t := jsGet (args.getD .null) "text"
      if hasText && !jsIsNull t && !jsTypeofString t then
        pure (.err "text must be string or null")
      else
        let st := jsGet (args.getD .null) "status"
        if hasStatus && !jsIsNull st &&
           !(jsEqStr st "TODO" || jsEqStr st "DONE") then
          pure (.err "invalid status")
        else pure .pass

/-- The `delete_note` case of the validator's switch. -/
def validateDeleteNote (args : Option Json) : Except JsErr ValidationResult :=
  if !jsTypeofString (jsGet (args.getD .null) "id") then
    .ok (.err "delete_note.args.id must be string")
  else .ok .pass

/-- The `no_op` case of the validator's switch. -/
def validateNoOp (args : Option Json) : Except JsErr ValidationResult :=
  if !jsTypeofString (jsGet (args.getD .null) "message") then
    .ok (.err "no_op.args.message must be string")
  else .ok .pass

/-- `validateLLMResult(obj)`, transcribed clause by clause: the guards,
then the switch on the action tag. -/
def validateLLMResult (o : Json) : Except JsErr ValidationResult :=
  if !jsTruthy o || !jsTypeofObject o then .ok (.err "not an object") else
  let action := jsGet o "action"
  let args := jsGet o "args"
  if !isAllowedAction action then .ok (.err "invalid action") else
  if !isObjectNonNull args then .ok (.err "args must be object") else
  if jsEqStr action "add_note" then validateAddNote args
  else if jsEqStr action "list_notes" then validateListNotes args
  else if jsEqStr action "update_note" then validateUpdateNote args
  else if jsEqStr action "delete_note" then validateDeleteNote args
  else if jsEqStr action "no_op" then validateNoOp args
  else .ok (.err "unknown action")

/-! ## Loading the backing store

The read step of `withNotes` (`src/backend/repositories/notes.js`) and
the duplicate `loadNotes` in `src/index.js`:

    try { raw = await fs.readFile(DB_PATH, 'utf8');
          notes = JSON.parse(raw || '[]');
          if (!Array.isArray(notes)) notes = []; }
    catch (e) { if (e.code === 'ENOENT') notes = []; else throw e; }

The file system's answer is the model's input: the file is absent
(`ENOENT`), unreadable with some other error code, or present with raw
contents. A `SyntaxError` thrown by `JSON.parse` has no `code` property,
so the `catch` rethrows it. -/

/-- The state of the backing store file as the read sees it. -/
inductive RawStore where
  | absent
  | ioError (code : String)
  | present (raw : String)

/-- Errors that escape the load step. -/
inductive StoreErr where
  | io (code : String)
  | syntaxError
deriving Repr, DecidableEq

/-- The load step: empty collection when the file is absent, rethrow of
any other read error, `JSON.parse(raw || '[]')` otherwise with non-array
values replaced by the empty collection and parse failures rethrown. -/
def loadNotes : RawStore → Except StoreErr (List Json)
  | .absent => .ok []
  | .ioError code => .error (.io code)
  | .present raw =>
    match jsonParse (if raw = "" then "[]" else raw) with
    | none => .error .syntaxError
    | some (.arr xs) => .ok xs
    | some _ => .ok []

/-! # Theorems -/

/-! ## C1 — what `addNote` returns -/

/-- A note already in the store in the demonstration runs. -/
def demoNote : Note :=
  { id := "id-1", text := "Existing", status := "TODO"
    created_at := "t0", updated_at := "t0" }

/-- The note `addNote` builds for input `"Buy milk"` with fresh id
`"id-2"` at time `"t1"`. -/
def demoCreated : Note :=
  { id := "id-2", text := "Buy milk", status := "TODO"
    created_at := "t1", updated_at := "t1" }

/-- **C1** — the claim says `addNote(text)` returns the single created
`Note`, not the whole collection. The code creates the note correctly
(fresh id, status `TODO`, both timestamps set to now, appended at the
end), but its `withNotes` callback returns the whole `notes` array and
`withNotes` passes that through, so `addNote` returns the entire updated
collection: on a store already holding `demoNote`, the return value is
the two-element collection, not the created note. The route handler
(`message.js`) puts this value in the `note` field of its response and
the duplicate implementation in `src/index.js` returns `newNote` —
evidence that the single created note was the intent. -/
theorem addNote_returns_whole_collection :
    addNote [demoNote] "Buy milk" "id-2" "t1" =
      (.ok [demoNote, demoCreated], [demoNote, demoCreated]) ∧
    ¬ (addNote [demoNote] "Buy milk" "id-2" "t1").1 = .ok [demoCreated] := by
  constructor
  · rfl
  · intro h
    rw [show (addNote [demoNote] "Buy milk" "id-2" "t1").1 =
        .ok [demoNote, demoCreated] from rfl] at h
    simp [demoNote, demoCreated] at h

/-! ## C2 — missing vs malformed backing store -/

/-- **C2 counterexample** — the claim says a malformed backing store is
treated as an empty collection with no error raised. A file holding the
unparseable text `"{"` makes `JSON.parse` throw a `SyntaxError`, which
the `catch` rethrows (its `code` is not `ENOENT`): the load does not
produce the empty collection. -/
theorem loadNotes_malformed_raises :
    loadNotes (.present "\x7b") = .error .syntaxError ∧
    ¬ loadNotes (.present "\x7b") = .ok [] := by
  refine ⟨rfl, fun h => ?_⟩
  rw [show loadNotes (.present "\x7b") = .error .syntaxError from rfl] at h
  exact Except.noConfusion h

/-- **C2 (amended)** — a missing store file, an empty file, or a file
whose JSON decodes to a non-array is treated as the empty collection;
a file whose contents fail to parse as JSON raises (the `SyntaxError`
propagates, like every other storage I/O failure, which also
propagates). -/
theorem loadNotes_spec (raw : String) (code : String) :
    loadNotes .absent = .ok [] ∧
    loadNotes (.present "") = .ok [] ∧
    (∀ xs, jsonParse raw = some (.arr xs) → loadNotes (.present raw) = .ok xs) ∧
    (∀ v, jsonParse raw = some v → (∀ xs, ¬ v = .arr xs) →
      loadNotes (.present raw) = .ok []) ∧
    (¬ raw = "" → jsonParse raw = none →
      loadNotes (.present raw) = .error .syntaxError) ∧
    loadNotes (.ioError code) = .error (.io code) := by
  refine ⟨rfl, rfl, ?_, ?_, ?_, rfl⟩
  · intro xs h
    by_cases hr : raw = ""
    · subst hr
      rw [show jsonParse "" = none from rfl] at h
      exact Option.noConfusion h
    · simp only [loadNotes, if_neg hr, h]
  · intro v h hv
    by_cases hr : raw = ""
    · subst hr
      rw [show jsonParse "" = none from rfl] at h
      exact Option.noConfusion h
    · cases v with
      | arr xs => exact absurd rfl (hv xs)
      | null => simp only [loadNotes, if_neg hr, h]
      | bool b => simp only [loadNotes, if_neg hr, h]
      | num n => simp only [loadNotes, if_neg hr, h]
      | str s => simp only [loadNotes, if_neg hr, h]
      | obj fs => simp only [loadNotes, if_neg hr, h]
  · intro hr h
    simp only [loadNotes, if_neg hr, h]

/-- **C2 witness** — the amended statement at concrete inputs: a store
holding the JSON array `[]` loads as the empty collection, a store
holding the object `{}` (well-formed but not an array) loads as the
empty collection, and an unreadable store with error code `EACCES`
propagates that error. -/
theorem loadNotes_spec_witness :
    loadNotes (.present "[]") = .ok [] ∧
    loadNotes (.present "\x7b\x7d") = .ok [] ∧
    loadNotes (.ioError "EACCES") = .error (.io "EACCES") := by
  refine ⟨(loadNotes_spec "[]" "EACCES").2.2.1 [] rfl, ?_, (loadNotes_spec "[]" "EACCES").2.2.2.2.2⟩
  exact (loadNotes_spec "\x7b\x7d" "EACCES").2.2.2.1 (.obj []) rfl
    (fun xs h => Json.noConfusion h)

/-! ## C3 and C10 — the `list_notes` filter rules -/

/-- A decoded `list_notes` decision carrying only a `filter` argument. -/
def mkListNotesFilter (f : String) : Json :=
  .obj [("action", .str "list_notes"), ("args", .obj [("filter", .str f)])]

/-- A decoded `list_notes` decision carrying only a `limit` argument. -/
def mkListNotesLimit (l : Json) : Json :=
  .obj [("action", .str "list_notes"), ("args", .obj [("limit", l)])]

/-- A nonempty all-digit string denoting a positive integer. -/
def isPosIntString (s : String) : Bool :=
  !s.data.isEmpty && s.data.all Char.isDigit && 0 < digitsVal s.data

/-- Modelled from the spec's words, for comparison with the code: the
filter grammar `all | TODO | DONE | recent:<positive integer>`. -/
def specListFilterOk (f : String) : Bool :=
  f = "all" || f = "TODO" || f = "DONE" ||
  (jsStartsWith f "recent:" && isPosIntString ⟨f.data.drop 7⟩)

/-- What the validator actually accepts as a `filter` string: the three
exact names, or any string at all that begins with `recent:`. -/
lemma validate_filter_iff (f : String) :
    validateLLMResult (mkListNotesFilter f) = .ok .pass ↔
      (f = "all" ∨ f = "TODO" ∨ f = "DONE" ∨ jsStartsWith f "recent:" = true) := by
  simp [validateLLMResult, validateListNotes, mkListNotesFilter, jsGet, jsHasKey,
    jsTypeofString, jsStartsWithMethod, jsEqStr, jsTruthy, jsTypeofObject,
    isAllowedAction, isObjectNonNull, jsIsNull, jsIsInteger, jsTrimMethod,
    Bind.bind, Except.bind, Pure.pure, Except.pure]
  tauto

/-- What the validator actually accepts as a `limit`: `null` or any
integer. -/
lemma validate_limit_iff (l : Json) :
    validateLLMResult (mkListNotesLimit l) = .ok .pass ↔
      (l = .null ∨ ∃ n : Int, l = .num n) := by
  cases l <;>
    simp [validateLLMResult, validateListNotes, mkListNotesLimit, jsGet, jsHasKey,
      jsTypeofString, jsStartsWithMethod, jsEqStr, jsTruthy, jsTypeofObject,
      isAllowedAction, isObjectNonNull, jsIsNull, jsIsInteger, jsTrimMethod,
      Bind.bind, Except.bind, Pure.pure, Except.pure]

/-- **C3 counterexample** — the claim says a present `filter` validates
only when it is `all`, `TODO`, `DONE` or `recent:<positive integer>`,
but the code only checks `startsWith('recent:')`: the filter
`"recent:abc"`, which matches no case of the claimed grammar, is
accepted. -/
theorem validateFilter_accepts_nonnumeric_recent :
    validateLLMResult (mkListNotesFilter "recent:abc") = .ok .pass ∧
    specListFilterOk "recent:abc" = false := ⟨rfl, rfl⟩

/-- A decoded `list_notes` decision whose `filter` argument is an
arbitrary JSON value (not necessarily a string). -/
def mkListNotesFilterJson (fv : Json) : Json :=
  .obj [("action", .str "list_notes"), ("args", .obj [("filter", fv)])]

/-- A decoded `list_notes` decision carrying both a `filter` and a
`limit`, each an arbitrary JSON value. -/
def mkListNotesArgs (fv lv : Json) : Json :=
  .obj [("action", .str "list_notes"),
        ("args", .obj [("filter", fv), ("limit", lv)])]

/-- Two rejection results are never the acceptance result, whichever
branch an `if` takes. -/
lemma ite_err_ne_pass (c : Prop) [Decidable c] (e1 e2 : String) :
    ¬ ((if c then Except.ok (ValidationResult.err e1)
        else Except.ok (ValidationResult.err e2)) =
       (.ok ValidationResult.pass : Except JsErr ValidationResult)) := by
  split <;> simp

/-- The filter rule over arbitrary JSON filter values: only strings of
the accepted shapes pass; every non-string filter is rejected. -/
lemma validate_filterJson_iff (fv : Json) :
    validateLLMResult (mkListNotesFilterJson fv) = .ok .pass ↔
      (∃ f : String, fv = .str f ∧
        (f = "all" ∨ f = "TODO" ∨ f = "DONE" ∨ jsStartsWith f "recent:" = true)) := by
  cases fv with
  | str f =>
    rw [show mkListNotesFilterJson (.str f) = mkListNotesFilter f from rfl,
      validate_filter_iff]
    simp
  | null =>
    simp [validateLLMResult, validateListNotes, mkListNotesFilterJson, jsGet, jsHasKey,
      jsTypeofString, jsStartsWithMethod, jsEqStr, jsTruthy, jsTypeofObject,
      isAllowedAction, isObjectNonNull, jsIsNull, jsIsInteger, jsTrimMethod,
      Bind.bind, Except.bind, Pure.pure, Except.pure]
  | bool b =>
    simp [validateLLMResult, validateListNotes, mkListNotesFilterJson, jsGet, jsHasKey,
      jsTypeofString, jsStartsWithMethod, jsEqStr, jsTruthy, jsTypeofObject,
      isAllowedAction, isObjectNonNull, jsIsNull, jsIsInteger, jsTrimMethod,
      Bind.bind, Except.bind, Pure.pure, Except.pure]
  | num n =>
    simp [validateLLMResult, validateListNotes, mkListNotesFilterJson, jsGet, jsHasKey,
      jsTypeofString, jsStartsWithMethod, jsEqStr, jsTruthy, jsTypeofObject,
      isAllowedAction, isObjectNonNull, jsIsNull, jsIsInteger, jsTrimMethod,
      Bind.bind, Except.bind, Pure.pure, Except.pure]
  | arr xs =>
    simp [validateLLMResult, validateListNotes, mkListNotesFilterJson, jsGet, jsHasKey,
      jsTypeofString, jsStartsWithMethod, jsEqStr, jsTruthy, jsTypeofObject,
      isAllowedAction, isObjectNonNull, jsIsNull, jsIsInteger, jsTrimMethod,
      Bind.bind, Except.bind, Pure.pure, Except.pure]
  | obj fs =>
    simp [validateLLMResult, validateListNotes, mkListNotesFilterJson, jsGet, jsHasKey,
      jsTypeofString, jsStartsWithMethod, jsEqStr, jsTruthy, jsTypeofObject,
      isAllowedAction, isObjectNonNull, jsIsNull, jsIsInteger, jsTrimMethod,
      Bind.bind, Except.bind, Pure.pure, Except.pure]

set_option maxHeartbeats 1000000 in
/-- The rule for a value carrying both fields: acceptance exactly when
the filter is a string of an accepted shape *and* the limit is an
integer or null; the filter check runs first. -/
lemma validate_args_iff (fv lv : Json) :
    validateLLMResult (mkListNotesArgs fv lv) = .ok .pass ↔
      ((∃ f : String, fv = .str f ∧
        (f = "all" ∨ f = "TODO" ∨ f = "DONE" ∨ jsStartsWith f "recent:" = true)) ∧
       (lv = .null ∨ ∃ n : Int, lv = .num n)) := by
  cases fv <;> cases lv <;>
    simp [validateLLMResult, validateListNotes, mkListNotesArgs, jsGet, jsHasKey,
      jsTypeofString, jsStartsWithMethod, jsEqStr, jsTruthy, jsTypeofObject,
      isAllowedAction, isObjectNonNull, jsIsNull, jsIsInteger, jsTrimMethod,
      Bind.bind, Except.bind, Pure.pure, Except.pure, ite_err_ne_pass] <;>
    tauto

/-- **C3 (amended)** — for action `list_notes`, over arbitrary decoded
argument values: a present `filter` validates exactly when it is a
*string* equal to `all`, `TODO`, `DONE`, or any string beginning with
`recent:` (every non-string filter is rejected; the suffix after
`recent:` is not checked); a present `limit` validates exactly when it
is an integer or null; and a value carrying both fields validates
exactly when both rules hold. -/
theorem validate_list_notes_args (fv lv : Json) :
    (validateLLMResult (mkListNotesFilterJson fv) = .ok .pass ↔
      (∃ f : String, fv = .str f ∧
        (f = "all" ∨ f = "TODO" ∨ f = "DONE" ∨ jsStartsWith f "recent:" = true))) ∧
    (validateLLMResult (mkListNotesLimit lv) = .ok .pass ↔
      (lv = .null ∨ ∃ n : Int, lv = .num n)) ∧
    (validateLLMResult (mkListNotesArgs fv lv) = .ok .pass ↔
      ((∃ f : String, fv = .str f ∧
        (f = "all" ∨ f = "TODO" ∨ f = "DONE" ∨ jsStartsWith f "recent:" = true)) ∧
       (lv = .null ∨ ∃ n : Int, lv = .num n))) :=
  ⟨validate_filterJson_iff fv, validate_limit_iff lv, validate_args_iff fv lv⟩

/-- **C3 witness** — the amended statement at concrete inputs: a
non-string filter (the number 5) is rejected with `filter must be
string`; filter `TODO` together with the integer limit 3 passes; the
same filter with the string limit `"3"` is rejected. -/
theorem validate_list_notes_args_witness :
    validateLLMResult (mkListNotesFilterJson (.num 5)) =
      .ok (.err "filter must be string") ∧
    validateLLMResult (mkListNotesArgs (.str "TODO") (.num 3)) = .ok .pass ∧
    validateLLMResult (mkListNotesArgs (.str "TODO") (.str "3")) =
      .ok (.err "limit must be integer or null") := by
  refine ⟨rfl, ?_, rfl⟩
  exact ((validate_list_notes_args (.str "TODO") (.num 3)).2.2).mpr
    ⟨⟨"TODO", rfl, Or.inr (Or.inl rfl)⟩, Or.inr ⟨3, rfl⟩⟩

/-- The filter pipeline ignores a `recent:` filter whose extracted count
is not positive: no recency restriction is applied, exactly as for
filter `all`. -/
lemma listFilter_recent_nonpos (notes : List Note) (filter : String)
    (limit : Option Int) (h1 : jsStartsWith filter "recent:" = true)
    (h2 : recentCount filter ≤ 0) :
    listFilter notes filter limit = listFilter notes "all" limit := by
  have hT : ¬ filter = "TODO" := by
    intro h; subst h; exact absurd h1 (by decide)
  have hD : ¬ filter = "DONE" := by
    intro h; subst h; exact absurd h1 (by decide)
  have hn : ¬ (0 < recentCount filter) := not_lt.mpr h2
  simp only [listFilter, if_neg hT, if_neg hD, h1, if_true, if_neg hn]
  have : ¬ ("all" : String) = "TODO" := by decide
  have : ¬ ("all" : String) = "DONE" := by decide
  simp [jsStartsWith]

/-- **C10** — a filter that begins with `recent:` but whose suffix does
not parse (via `parseInt`) to a positive integer is accepted by the
validator, and `listNotes` applies no recency restriction: with no
limit the whole collection is returned, and with a limit the result is
exactly that of filter `all` with the same limit. -/
theorem recent_garbage_lists_everything (notes : List Note) (filter : String)
    (limit : Option Int) (h1 : jsStartsWith filter "recent:" = true)
    (h2 : recentCount filter ≤ 0) :
    validateLLMResult (mkListNotesFilter filter) = .ok .pass ∧
    (listNotes notes filter none).1 = notes ∧
    (listNotes notes filter limit).1 = listFilter notes "all" limit := by
  refine ⟨(validate_filter_iff filter).mpr (Or.inr (Or.inr (Or.inr h1))), ?_, ?_⟩
  · show listFilter notes filter none = notes
    rw [listFilter_recent_nonpos notes filter none h1 h2]
    simp [listFilter, jsStartsWith]
  · show listFilter notes filter limit = listFilter notes "all" limit
    exact listFilter_recent_nonpos notes filter limit h1 h2

/-- **C10 witness** — the statement at concrete inputs: on a two-note
store, the filters `recent:abc`, `recent:0` and `recent:-3` are all
accepted and return the whole store. -/
theorem recent_garbage_lists_everything_witness :
    (validateLLMResult (mkListNotesFilter "recent:abc") = .ok .pass ∧
      (listNotes [demoNote, demoCreated] "recent:abc" none).1 = [demoNote, demoCreated] ∧
      (listNotes [demoNote, demoCreated] "recent:abc" (some 1)).1 =
        listFilter [demoNote, demoCreated] "all" (some 1)) ∧
    (listNotes [demoNote, demoCreated] "recent:0" none).1 = [demoNote, demoCreated] ∧
    (listNotes [demoNote, demoCreated] "recent:-3" none).1 = [demoNote, demoCreated] := by
  refine ⟨recent_garbage_lists_everything [demoNote, demoCreated] "recent:abc"
    (some 1) (by decide) (by decide), ?_, ?_⟩
  · exact (recent_garbage_lists_everything [demoNote, demoCreated] "recent:0"
      none (by decide) (by decide)).2.1
  · exact (recent_garbage_lists_everything [demoNote, demoCreated] "recent:-3"
      none (by decide) (by decide)).2.1

/-! ## C7 — the validator is total (never raises) -/

/-- The `in`-operator use in the validator is guarded: on an object (or
array) `args` it returns a boolean and cannot throw. -/
lemma jsHasKey_isOk (v : Option Json) (k : String) (h : isObjectNonNull v = true) :
    ∃ b, jsHasKey v k = .ok b := by
  match v with
  | some (.arr xs) => exact ⟨_, rfl⟩
  | some (.obj fs) => exact ⟨_, rfl⟩
  | none | some .null | some (.bool _) | some (.num _) | some (.str _) =>
    exact Bool.noConfusion h

/-- `.trim()` is only reached behind a `typeof === 'string'` guard. -/
lemma jsTrimMethod_isOk (v : Option Json) (h : jsTypeofString v = true) :
    ∃ s, jsTrimMethod v = .ok s := by
  match v with
  | some (.str s) => exact ⟨_, rfl⟩
  | none | some .null | some (.bool _) | some (.num _) | some (.arr _) | some (.obj _) =>
    exact Bool.noConfusion h

/-- `.startsWith()` is only reached behind a `typeof === 'string'` guard. -/
lemma jsStartsWithMethod_isOk (v : Option Json) (pre : String)
    (h : jsTypeofString v = true) : ∃ b, jsStartsWithMethod v pre = .ok b := by
  match v with
  | some (.str s) => exact ⟨_, rfl⟩
  | none | some .null | some (.bool _) | some (.num _) | some (.arr _) | some (.obj _) =>
    exact Bool.noConfusion h

lemma validateAddNote_total (args : Option Json) :
    ∃ r, validateAddNote args = .ok r := by
  unfold validateAddNote
  split
  · exact ⟨_, rfl⟩
  rename_i h
  obtain ⟨s, hs⟩ := jsTrimMethod_isOk _ (by simpa using h)
  simp only [hs, bind, Except.bind]
  split <;> exact ⟨_, rfl⟩

lemma validateListNotes_total (args : Option Json) (h : isObjectNonNull args = true) :
    ∃ r, validateListNotes args = .ok r := by
  unfold validateListNotes
  obtain ⟨b, hb⟩ := jsHasKey_isOk args "filter" h
  obtain ⟨b2, hb2⟩ := jsHasKey_isOk args "limit" h
  simp only [hb, hb2, bind, Except.bind, pure, Except.pure]
  cases b
  · simp only [Bool.false_eq_true, if_false]
    split
    · split <;> exact ⟨_, rfl⟩
    · exact ⟨_, rfl⟩
  · simp only [if_true]
    split
    · exact ⟨_, rfl⟩
    rename_i hstr
    obtain ⟨br, hbr⟩ := jsStartsWithMethod_isOk _ "recent:" (by simpa using hstr)
    simp only [hbr]
    split
    · exact ⟨_, rfl⟩
    split
    · split <;> exact ⟨_, rfl⟩
    · exact ⟨_, rfl⟩

lemma validateUpdateNote_total (args : Option Json) (h : isObjectNonNull args = true) :
    ∃ r, validateUpdateNote args = .ok r := by
  unfold validateUpdateNote
  obtain ⟨bt, hbt⟩ := jsHasKey_isOk args "text" h
  obtain ⟨bs, hbs⟩ := jsHasKey_isOk args "status" h
  simp only [hbt, hbs, bind, Except.bind, pure, Except.pure]
  split
  · exact ⟨_, rfl⟩
  split
  · exact ⟨_, rfl⟩
  split
  · exact ⟨_, rfl⟩
  split <;> exact ⟨_, rfl⟩

lemma validateDeleteNote_total (args : Option Json) :
    ∃ r, validateDeleteNote args = .ok r := by
  unfold validateDeleteNote
  split <;> exact ⟨_, rfl⟩

lemma validateNoOp_total (args : Option Json) :
    ∃ r, validateNoOp args = .ok r := by
  unfold validateNoOp
  split <;> exact ⟨_, rfl⟩

/-- **C7** — for every decoded input value, of any shape (non-object,
null, wrong field types, missing fields, unknown action tags,
out-of-enum values), the validator returns a result — acceptance or a
structured rejection — and never throws: every dynamic method call and
`in`-operator use sits behind a type guard, so execution never reaches
the exception case of the model. -/
theorem validateLLMResult_total (o : Json) : ∃ r, validateLLMResult o = .ok r := by
  unfold validateLLMResult
  simp only []
  split
  · exact ⟨_, rfl⟩
  split
  · exact ⟨_, rfl⟩
  split
  · exact ⟨_, rfl⟩
  rename_i hargs
  have hargs' : isObjectNonNull (jsGet o "args") = true := by simpa using hargs
  split
  · exact validateAddNote_total _
  split
  · exact validateListNotes_total _ hargs'
  split
  · exact validateUpdateNote_total _ hargs'
  split
  · exact validateDeleteNote_total _
  split
  · exact validateNoOp_total _
  exact ⟨_, rfl⟩

/-! ## C4 — decoding the raw LLM response -/

/-- **C4 counterexample** — the claim says the interpreter extracts and
parses the *first balanced* `{...}` substring. On the raw response
`{"a":1} x {"b":2}` (not directly parseable), the first balanced
substring is `{"a":1}`, which parses; but the greedy regex
`\{[\s\S]*\}` matches from the first `{` to the *last* `}`, taking the
whole string, which fails to parse — so the code falls back to the
synthesized `no_op` instead of returning `{"a":1}`. -/
theorem extract_not_first_balanced :
    extractAction "\x7b\"a\":1\x7d x \x7b\"b\":2\x7d" = noopFallback ∧
    jsonParse "\x7b\"a\":1\x7d" = some (.obj [("a", .num 1)]) ∧
    ¬ noopFallback = .obj [("a", .num 1)] := by
  refine ⟨rfl, rfl, ?_⟩
  simp [noopFallback]

/-- **C4 (amended)** — if the raw response is directly parseable the
parse is returned; otherwise the code extracts the substring spanning
the first `{` through the *last* `}` (the regex `\{[\s\S]*\}` is
greedy, not first-balanced) and parses that; if there is no such
substring or it fails to parse, the synthesized `no_op` with a
diagnostic message is returned instead of an error. Garbage text with
one embedded JSON object yields exactly that object provided the text's
last `}` is the object's own closing brace. -/
theorem extractAction_spec (content m : String) (v : Json) :
    (jsonParse content = some v → extractAction content = v) ∧
    (jsonParse content = none → greedyBraceMatch content = some m →
      jsonParse m = some v → extractAction content = v) ∧
    (jsonParse content = none → greedyBraceMatch content = none →
      extractAction content = noopFallback) ∧
    (jsonParse content = none → greedyBraceMatch content = some m →
      jsonParse m = none → extractAction content = noopFallback) := by
  refine ⟨fun h => ?_, fun h1 h2 h3 => ?_, fun h1 h2 => ?_, fun h1 h2 h3 => ?_⟩
  · simp only [extractAction, h]
  · simp only [extractAction, h1, h2, h3]
  · simp only [extractAction, h1, h2]
  · simp only [extractAction, h1, h2, h3]

/-- **C4 witness** — the spec's scenario: garbage text with the single
embedded object `{"action":"no_op","args":{"message":"hi"}}` (and no
other braces) decodes to exactly that object; text with no braces at
all decodes to the synthesized `no_op`. -/
theorem extractAction_spec_witness :
    extractAction
        "garbage before \x7b\"action\":\"no_op\",\"args\":\x7b\"message\":\"hi\"\x7d\x7d" =
      .obj [("action", .str "no_op"), ("args", .obj [("message", .str "hi")])] ∧
    extractAction "total garbage with no braces" = noopFallback := by
  constructor
  · exact (extractAction_spec
      "garbage before \x7b\"action\":\"no_op\",\"args\":\x7b\"message\":\"hi\"\x7d\x7d"
      "\x7b\"action\":\"no_op\",\"args\":\x7b\"message\":\"hi\"\x7d\x7d"
      (.obj [("action", .str "no_op"), ("args", .obj [("message", .str "hi")])])).2.1
      rfl rfl rfl
  · exact (extractAction_spec "total garbage with no braces" "" .null).2.2.1 rfl rfl

/-! ## C5 — updating an unknown id -/

/-- **C5** — for every id not present in the collection and every
update argument set, `updateNote` fails with the not-found error and
the persisted collection is unchanged: the callback throws before
returning a replacement, so `withNotes` never reaches its write step. -/
theorem updateNote_unknown_id (stored : List Note) (id : String)
    (text status : Option String) (now : String)
    (h : ∀ n ∈ stored, ¬ n.id = id) :
    updateNote stored id text status now = (.error .notFound, stored) := by
  have hidx : stored.findIdx? (fun n => n.id = id) = none := by
    rw [List.findIdx?_eq_none_iff]
    intro n hn
    simpa using h n hn
  have hb : updateBody stored id text status now = .error .notFound := by
    unfold updateBody
    split
    · rfl
    · rename_i idx hfound
      rw [hidx] at hfound
      exact Option.noConfusion hfound
  unfold updateNote withNotes
  simp only [hb]
  rfl

/-- **C5 witness** — `updateNote(unknownId, {status: "DONE"})` on a
one-note store: the not-found error, store unchanged. -/
theorem updateNote_unknown_id_witness :
    updateNote [demoNote] "no-such-id" none (some "DONE") "t2" =
      (.error .notFound, [demoNote]) :=
  updateNote_unknown_id [demoNote] "no-such-id" none (some "DONE") "t2"
    (by intro n hn; simp only [List.mem_singleton] at hn; subst hn; decide)

/-! ## C9 — listing is read-only and repeatable -/

/-- **C9** — `listNotes` goes through the read-only path of `withNotes`
(its callback returns `undefined`, so nothing is written): the persisted
collection afterwards is exactly the collection before, and a second
call with the same arguments and no intervening mutation returns the
same listing. -/
theorem listNotes_readonly (stored : List Note) (filter : String)
    (limit : Option Int) :
    (listNotes stored filter limit).2 = stored ∧
    (listNotes (listNotes stored filter limit).2 filter limit).1 =
      (listNotes stored filter limit).1 :=
  ⟨rfl, rfl⟩

/-! ## C8 — `listNotes` filter and limit semantics -/

/-- **C8** — `recent:N` (N a positive integer, here given as the value
`parseInt` extracts from the filter) returns exactly the last
`min N k` notes of a `k`-note collection in insertion order (the
conclusion names the suffix by its `drop`, and its length); `TODO` and
`DONE` keep exactly the notes of matching status in order; `all` keeps
everything; and a present positive integer limit is a prefix cap applied
after the filter. -/
theorem listNotes_filter_semantics (notes : List Note) (filter : String)
    (N : Nat) (l : Int)
    (hrec : jsStartsWith filter "recent:" = true)
    (hN : recentCount filter = Int.ofNat N) (hpos : 0 < N) (hl : 0 < l) :
    (listNotes notes filter none).1 =
      notes.drop (notes.length - min N notes.length) ∧
    ((listNotes notes filter none).1).length = min N notes.length ∧
    (listNotes notes "TODO" none).1 = notes.filter (fun n => n.status = "TODO") ∧
    (listNotes notes "DONE" none).1 = notes.filter (fun n => n.status = "DONE") ∧
    (listNotes notes "all" none).1 = notes ∧
    (∀ f : String, (listNotes notes f (some l)).1 =
      ((listNotes notes f none).1).take l.toNat) := by
  have hT : ¬ filter = "TODO" := by
    intro h; subst h; exact absurd hrec (by decide)
  have hD : ¬ filter = "DONE" := by
    intro h; subst h; exact absurd hrec (by decide)
  have hfirst : (listNotes notes filter none).1 =
      notes.drop (notes.length - min N notes.length) := by
    show listFilter notes filter none = _
    simp only [listFilter, if_neg hT, if_neg hD, hrec, if_true, hN]
    have hpos' : (0 : Int) < Int.ofNat N := by
      rw [Int.ofNat_eq_natCast]
      exact_mod_cast hpos
    rw [if_pos hpos']
    simp
  refine ⟨hfirst, ?_, rfl, rfl, rfl, ?_⟩
  · rw [hfirst, List.length_drop]
    have := Nat.min_le_right N notes.length
    omega
  · intro f
    show listFilter notes f (some l) = (listFilter notes f none).take l.toNat
    simp only [listFilter]
    rw [if_pos (le_of_lt hl)]

/-- Five demonstration notes with mixed statuses, in insertion order. -/
def noteA : Note := { id := "n1", text := "one", status := "TODO", created_at := "t1", updated_at := "t1" }

/-- Second demonstration note. -/
def noteB : Note := { id := "n2", text := "two", status := "DONE", created_at := "t2", updated_at := "t2" }

/-- Third demonstration note. -/
def noteC : Note := { id := "n3", text := "three", status := "TODO", created_at := "t3", updated_at := "t3" }

/-- Fourth demonstration note. -/
def noteD : Note := { id := "n4", text := "four", status := "DONE", created_at := "t4", updated_at := "t4" }

/-- Fifth demonstration note. -/
def noteE : Note := { id := "n5", text := "five", status := "TODO", created_at := "t5", updated_at := "t5" }

/-- The five-note demonstration store. -/
def demoStore : List Note := [noteA, noteB, noteC, noteD, noteE]

/-- **C8 witness** — the spec's scenario on the five-note store:
`recent:2` returns exactly the last two notes in insertion order;
`TODO`/`DONE` keep the matching notes; `all` keeps everything; limit 1
caps the `recent:2` result to its first element. -/
theorem listNotes_filter_semantics_witness :
    (listNotes demoStore "recent:2" none).1 = [noteD, noteE] ∧
    (listNotes demoStore "TODO" none).1 = [noteA, noteC, noteE] ∧
    (listNotes demoStore "DONE" none).1 = [noteB, noteD] ∧
    (listNotes demoStore "all" none).1 = demoStore ∧
    (listNotes demoStore "recent:2" (some 1)).1 = [noteD] := by
  have h := listNotes_filter_semantics demoStore "recent:2" 2 1
    (by decide) (by decide) (by decide) (by decide)
  exact ⟨h.1, h.2.2.1, h.2.2.2.1, h.2.2.2.2.1, h.2.2.2.2.2 "recent:2"⟩

/-! ## C6 — text/status invariants over operation sequences -/

/-- One mutating service call with its environment-supplied inputs
(fresh id, timestamp). -/
inductive NoteOp where
  | add (text freshId now : String)
  | update (id : String) (text status : Option String) (now : String)
  | del (id : String)

/-- The persisted collection after one call: a failed call leaves the
store unchanged (`withNotes` only writes the callback's result). -/
def applyOp (stored : List Note) : NoteOp → List Note
  | .add text freshId now => (addNote stored text freshId now).2
  | .update id text status now => (updateNote stored id text status now).2
  | .del id => (deleteNote stored id).2

/-- The persisted collection after a sequence of calls. -/
def applyOps (stored : List Note) (ops : List NoteOp) : List Note :=
  ops.foldl applyOp stored

/-- The invariant the spec states for every stored note: text within the
maximum length, status one of the two enum values. -/
def noteOk (n : Note) : Prop :=
  n.text.length ≤ MAX_TEXT_LENGTH ∧ (n.status = "TODO" ∨ n.status = "DONE")

instance (n : Note) : Decidable (noteOk n) := by
  unfold noteOk; infer_instance

lemma takeChars_length_le (s : String) (n : Nat) : (takeChars s n).length ≤ n := by
  show (s.data.take n).length ≤ n
  simp [List.length_take]

/-- A successful `updateNote` callback only stores notes that satisfy
the invariant, assuming the collection it read satisfied it. -/
lemma updateBody_preserves (notes : List Note) (id : String)
    (text status : Option String) (now : String) (l' : List Note)
    (h : ∀ n ∈ notes, noteOk n)
    (hok : updateBody notes id text status now = .ok l') :
    ∀ n ∈ l', noteOk n := by
  unfold updateBody at hok
  split at hok
  · exact Except.noConfusion hok
  rename_i idx hfound
  have hmemget : ∀ (hh : idx < notes.length), notes.get ⟨idx, hh⟩ ∈ notes :=
    fun hh => List.get_mem notes idx hh
  cases text <;> cases status <;> simp only [] at hok
  · rw [Except.ok.injEq] at hok
    subst hok
    intro n hn
    rcases List.mem_or_eq_of_mem_set hn with hmem | rfl
    · exact h n hmem
    · exact ⟨(h _ (hmemget _)).1, (h _ (hmemget _)).2⟩
  · split at hok
    · rename_i hst
      rw [Except.ok.injEq] at hok
      subst hok
      intro n hn
      rcases List.mem_or_eq_of_mem_set hn with hmem | rfl
      · exact h n hmem
      · exact ⟨(h _ (hmemget _)).1, hst⟩
    · exact Except.noConfusion hok
  · rw [Except.ok.injEq] at hok
    subst hok
    intro n hn
    rcases List.mem_or_eq_of_mem_set hn with hmem | rfl
    · exact h n hmem
    · exact ⟨takeChars_length_le _ _, (h _ (hmemget _)).2⟩
  · split at hok
    · rename_i hst
      rw [Except.ok.injEq] at hok
      subst hok
      intro n hn
      rcases List.mem_or_eq_of_mem_set hn with hmem | rfl
      · exact h n hmem
      · exact ⟨takeChars_length_le _ _, hst⟩
    · exact Except.noConfusion hok

/-- Every single operation preserves the invariant. -/
lemma applyOp_preserves (stored : List Note) (op : NoteOp)
    (h : ∀ n ∈ stored, noteOk n) : ∀ n ∈ applyOp stored op, noteOk n := by
  cases op with
  | add text freshId now =>
    intro n hn
    rcases List.mem_append.mp hn with hmem | hnew
    · exact h n hmem
    · rw [List.mem_singleton] at hnew
      subst hnew
      exact ⟨takeChars_length_le _ _, Or.inl rfl⟩
  | update id text status now =>
    show ∀ n ∈ (updateNote stored id text status now).2, noteOk n
    unfold updateNote withNotes
    cases hb : updateBody stored id text status now with
    | error e => simp only [hb, Except.map]; exact h
    | ok l' =>
      simp only [hb, Except.map]
      exact updateBody_preserves stored id text status now l' h hb
  | del id =>
    show ∀ n ∈ (deleteNote stored id).2, noteOk n
    unfold deleteNote withNotes
    split
    · exact h
    · rename_i res heq
      simp only [] at heq
      split at heq
      · exact Except.noConfusion heq
      · rw [Except.ok.injEq, Option.some.injEq] at heq
        subst heq
        intro n hn
        exact h n (List.mem_of_mem_filter hn)
    · exact h

/-- **C6** — after any sequence of add/update/delete operations on a
collection satisfying the invariant (the empty store trivially does),
every stored note has text of at most `MAX_TEXT_LENGTH` characters and
status `TODO` or `DONE`; `addNote` stores exactly the trimmed input
truncated to `MAX_TEXT_LENGTH` characters — of length exactly
`MAX_TEXT_LENGTH` when the trimmed input is longer — and a successful
`updateNote` with a text argument likewise stores exactly the trimmed,
truncated text in the note it rewrites. -/
theorem notes_text_status_invariant (init : List Note) (ops : List NoteOp)
    (hinit : ∀ n ∈ init, noteOk n) :
    (∀ n ∈ applyOps init ops, noteOk n) ∧
    (∀ stored text freshId now, MAX_TEXT_LENGTH < (jsTrim text).length →
      applyOp stored (.add text freshId now) =
        stored ++ [{ id := freshId,
                     text := takeChars (jsTrim text) MAX_TEXT_LENGTH,
                     status := "TODO", created_at := now, updated_at := now }] ∧
      (takeChars (jsTrim text) MAX_TEXT_LENGTH).length = MAX_TEXT_LENGTH) ∧
    (∀ notes id t status now l',
      updateBody notes id (some t) status now = .ok l' →
      ∀ n ∈ l', n ∈ notes ∨ n.text = takeChars (jsTrim t) MAX_TEXT_LENGTH) := by
  refine ⟨?_, ?_, ?_⟩
  · induction ops generalizing init with
    | nil => simpa [applyOps] using hinit
    | cons op ops ih =>
      show ∀ n ∈ applyOps (applyOp init op) ops, noteOk n
      exact ih _ (applyOp_preserves _ _ hinit)
  · intro stored text freshId now hlong
    refine ⟨rfl, ?_⟩
    show ((jsTrim text).data.take MAX_TEXT_LENGTH).length = MAX_TEXT_LENGTH
    rw [List.length_take]
    exact min_eq_left (le_of_lt hlong)
  · intro notes id t status now l' hok
    unfold updateBody at hok
    split at hok
    · exact Except.noConfusion hok
    rename_i idx hfound
    cases status <;> simp only [] at hok
    · rw [Except.ok.injEq] at hok
      subst hok
      intro n hn
      rcases List.mem_or_eq_of_mem_set hn with hmem | rfl
      · exact Or.inl hmem
      · exact Or.inr rfl
    · split at hok
      · rw [Except.ok.injEq] at hok
        subst hok
        intro n hn
        rcases List.mem_or_eq_of_mem_set hn with hmem | rfl
        · exact Or.inl hmem
        · exact Or.inr rfl
      · exact Except.noConfusion hok

/-- A 4001-character input, one over the maximum. -/
def longText : String := ⟨List.replicate 4001 'a'⟩

/-- Its first 4000 characters. -/
def longTextTruncated : String := ⟨List.replicate 4000 'a'⟩

lemma dropWhile_replicate_a (m : Nat) :
    (List.replicate m 'a').dropWhile jsWhite = List.replicate m 'a' := by
  cases m with
  | zero => rfl
  | succ k => simp [List.replicate_succ, List.dropWhile_cons, jsWhite]

lemma jsTrim_longText : jsTrim longText = longText := by
  show jsTrim ⟨List.replicate 4001 'a'⟩ = _
  unfold jsTrim
  rw [show (⟨List.replicate 4001 'a'⟩ : String).data = List.replicate 4001 'a' from rfl]
  rw [dropWhile_replicate_a, List.reverse_replicate, dropWhile_replicate_a,
    List.reverse_replicate]
  rfl

lemma takeChars_longText :
    takeChars (jsTrim longText) MAX_TEXT_LENGTH = longTextTruncated := by
  rw [jsTrim_longText]
  show (⟨(List.replicate 4001 'a').take 4000⟩ : String) = _
  rw [List.take_replicate]
  rfl

lemma longText_length : MAX_TEXT_LENGTH < (jsTrim longText).length := by
  rw [jsTrim_longText]
  show 4000 < (List.replicate 4001 'a').length
  rw [List.length_replicate]
  norm_num

/-- **C6 witness** — the statement at concrete inputs: a three-operation
run (add, update to DONE, delete) from a one-note store keeps the
invariant, and adding the 4001-character input stores exactly its first
4000 characters. -/
theorem notes_text_status_invariant_witness :
    (∀ n ∈ applyOps [demoNote]
      [NoteOp.add "  Buy milk  " "id-9" "t1",
       NoteOp.update "id-9" (some "  Done task  ") (some "DONE") "t2",
       NoteOp.del "id-1"], noteOk n) ∧
    (∀ stored text freshId now, MAX_TEXT_LENGTH < (jsTrim text).length →
      applyOp stored (.add text freshId now) =
        stored ++ [{ id := freshId,
                     text := takeChars (jsTrim text) MAX_TEXT_LENGTH,
                     status := "TODO", created_at := now, updated_at := now }] ∧
      (takeChars (jsTrim text) MAX_TEXT_LENGTH).length = MAX_TEXT_LENGTH) ∧
    (∀ notes id t status now l',
      updateBody notes id (some t) status now = .ok l' →
      ∀ n ∈ l', n ∈ notes ∨ n.text = takeChars (jsTrim t) MAX_TEXT_LENGTH) ∧
    applyOp [] (.add longText "id-long" "t9") =
      [{ id := "id-long", text := longTextTruncated, status := "TODO",
         created_at := "t9", updated_at := "t9" }] := by
  have h := notes_text_status_invariant [demoNote]
    [NoteOp.add "  Buy milk  " "id-9" "t1",
     NoteOp.update "id-9" (some "  Done task  ") (some "DONE") "t2",
     NoteOp.del "id-1"] (by decide)
  refine ⟨h.1, h.2.1, h.2.2, ?_⟩
  have heq := (h.2.1 [] longText "id-long" "t9" longText_length).1
  rw [heq, takeChars_longText]
  rfl
